import Mathlib

/-!
Verification development for the analysis core of a TypeScript worker:
the reference extractor `getPropertiesOrAttributesOf` and the outline
builder `getOutline` (with its helpers `extractLiteral`, `extractClass`,
`extractMethod`, `buildOutline`) from `src/tsWorker.ts`.

The syntax tree supplied by the external compiler frontend is modelled as
a rose tree of `NodeData` records: each record carries the node category
tag together with the results of the opaque accessors that the worker code
actually invokes on that node (`getText` of the base expression, the
`name` child, `getFullText` of a callee, the line of `getStart`, the
property list of an object literal, the operator token and left operand of
a binary expression, the statically inferred literal-string type of an
index expression).  The `parent` back-reference of the real tree is
modelled by passing the parent's record down the recursive walk.
JavaScript property writes `m[k][x] = true` are modelled in `Option`:
they produce `none` (a thrown TypeError) when the key `k` is absent.
-/

/-- Node category tags: the `ts.SyntaxKind` values the worker branches on,
plus catch-all tags for every other category (handled by default arms). -/
inductive SyntaxKind where
  | identifier
  | stringLiteral
  | propertyAccessExpression
  | elementAccessExpression
  | objectLiteralExpression
  | classDeclaration
  | classExpression
  | methodDeclaration
  | methodSignature
  | functionDeclaration
  | functionExpression
  | getAccessor
  | setAccessor
  | constructorKeyword
  | arrowFunction
  | propertyAssignment
  | variableDeclaration
  | callExpression
  | binaryExpression
  | sourceFile
  | unknownKind
deriving DecidableEq, Repr

/-- The `{ kind, escapedText?, text? }` shape consumed by
`getEscapedTextOfIdentifierOrLiteral`: a `name` child of a declaration. -/
structure NameLike where
  kind : SyntaxKind
  escapedText : Option String
  text : Option String
deriving DecidableEq, Repr

/-- The `argumentExpression` of an element access: its kind, its `getText()`
result, and the literal string value carried by the statically inferred type
of the expression (`'value' in typeChecker.getTypeAtLocation(...)`), when
that type has one. -/
structure ArgInfo where
  kind : SyntaxKind
  text : String
  typeValue : Option String
deriving DecidableEq, Repr

/-- The `left` operand of a binary expression, as read by the name
heuristics: its kind, its `name` when viewed as a variable declaration, and
its `getFullText()` result. -/
structure LeftInfo where
  kind : SyntaxKind
  name : Option NameLike
  fullText : String
deriving DecidableEq, Repr

/-- One entry of an object literal's `properties` list: its kind and the
kind of its initializer when the property assignment has one. -/
structure PropInfo where
  kind : SyntaxKind
  initializer : Option SyntaxKind
deriving DecidableEq, Repr

/-- The per-node record: the node's category together with the results of
every opaque accessor the worker invokes on that node.  Fields that a given
category does not possess are simply never read by the model on nodes of
that category, mirroring the dynamically typed source. -/
structure NodeData where
  kind : SyntaxKind
  /-- `node.expression.getText()` for member/element accesses. -/
  expressionText : String
  /-- `node.name.text` for a member access (the accessed member). -/
  nameText : String
  /-- `node.argumentExpression` for an element access. -/
  argumentExpression : Option ArgInfo
  /-- `node.name` for declarations (class, method, accessor, variable,
  property assignment). -/
  name : Option NameLike
  /-- line of `getLineAndCharacterOfPosition(node.getStart())`. -/
  startLine : Nat
  /-- `node.properties` for an object literal expression. -/
  properties : List PropInfo
  /-- `node.expression.getFullText()` when the node is a call expression
  (the callee), absent when the callee is missing. -/
  callExpressionFullText : Option String
  /-- `ts.tokenToString(node.operatorToken.kind)` for a binary expression. -/
  operatorTokenText : Option String
  /-- the left operand of a binary expression. -/
  left : LeftInfo
deriving DecidableEq, Repr

/-- A syntax tree: a node record plus the children visited by
`ts.forEachChild`, in source order. -/
inductive Node where
  | node : NodeData → List Node → Node

/-- The data record of a tree's root node. -/
def Node.data : Node → NodeData
  | .node d _ => d

/-- The `forEachChild` children of a tree's root node. -/
def Node.children : Node → List Node
  | .node _ cs => cs

/-- A program: the source files reachable from `program.getSourceFile`. -/
structure ProgramModel where
  sourceFiles : List (String × Node)

/-- The language-service state visible to the two analyses:
`languageService.getProgram()` may be absent. -/
structure LanguageServiceModel where
  program : Option ProgramModel

/-- `program.getSourceFile(fileName)`. -/
def getSourceFile (program : ProgramModel) (fileName : String) : Option Node :=
  (program.sourceFiles.find? (fun sf => sf.1 = fileName)).map (fun sf => sf.2)

/-- Resolution of a file identifier to a tree: the program, when present,
queried for the named source file. -/
def resolveFile (ls : LanguageServiceModel) (fileName : String) : Option Node :=
  match ls.program with
  | none => none
  | some program => getSourceFile program fileName

/-! ## Reference extractor: `getPropertiesOrAttributesOf` -/

/-- `referencedEntities`: a JavaScript object used as a map from root-entity
name to the set of member names recorded under it (a set being itself an
object keyed by member name, kept here in insertion order). -/
abbrev RefMap := List (String × List String)

/-- Truthiness of `referencedEntities[k]`: the key is present. -/
def containsKey (m : RefMap) (k : String) : Bool :=
  m.any (fun e => e.1 = k)

/-- The member set recorded under a key (empty when the key is absent). -/
def getMembers : RefMap → String → List String
  | [], _ => []
  | e :: t, k => if e.1 = k then e.2 else getMembers t k

/-- Overwrite every entry stored under a key with an empty set. -/
def setEmptyList : RefMap → String → RefMap
  | [], _ => []
  | e :: t, k => (if e.1 = k then (e.1, ([] : List String)) else e) :: setEmptyList t k

/-- `referencedEntities[key] = {}`: overwrite or append an empty set. -/
def setEmpty (m : RefMap) (k : String) : RefMap :=
  if containsKey m k then setEmptyList m k else m ++ [(k, [])]

/-- `parentObjects.forEach(key => referencedEntities[key] = {})`. -/
def initRefs (parentObjects : List String) : RefMap :=
  parentObjects.foldl setEmpty []

/-- `set[x] = true` on a member set: a repeated key collapses. -/
def addMember (s : List String) (x : String) : List String :=
  if x ∈ s then s else s ++ [x]

/-- Add a member to every entry stored under a key. -/
def setMemberList : RefMap → String → String → RefMap
  | [], _, _ => []
  | e :: t, k, x => (if e.1 = k then (e.1, addMember e.2 x) else e) :: setMemberList t k x

/-- `referencedEntities[k][x] = true`: records `x` under `k`; `none` models
the TypeError thrown when `referencedEntities[k]` is `undefined`. -/
def recordMember (m : RefMap) (k x : String) : Option RefMap :=
  if containsKey m k then some (setMemberList m k x) else none

/-- `.slice(1, -1)`: strip the first and last character (the quotes of a
string literal's source text). -/
def sliceQuotes (s : String) : String :=
  (s.drop 1).dropRight 1

/-- The first `if` statement of the element-access branch: the hard-coded
`Users[principal]` rule, replacing the identifier index with the literal
member `"System"` under the root `"Users"`. -/
def usersPrincipalStep (m : RefMap) (d : NodeData) (argumentExpression : ArgInfo) :
    Option RefMap :=
  if argumentExpression.kind = SyntaxKind.identifier then
    if d.expressionText = "Users" ∧ argumentExpression.text = "principal" then
      recordMember m "Users" "System"
    else some m
  else some m

/-- The second `if`/`else if` statement of the element-access branch: a
member-access index contributes the literal string value of its statically
inferred type when the type carries one, and a string-literal index
contributes its unquoted text. -/
def literalIndexStep (m1 : RefMap) (d : NodeData) (argumentExpression : ArgInfo) :
    Option RefMap :=
  if argumentExpression.kind = SyntaxKind.propertyAccessExpression then
    match argumentExpression.typeValue with
    | some v => recordMember m1 d.expressionText v
    | none => some m1
  else if argumentExpression.kind = SyntaxKind.stringLiteral then
    recordMember m1 d.expressionText (sliceQuotes argumentExpression.text)
  else some m1

/-- The body of the `visitNodes` callback of `getPropertiesOrAttributesOf`
applied to one node, before recursing into its children. -/
def visitStep (m : RefMap) (d : NodeData) : Option RefMap :=
  if d.kind = SyntaxKind.propertyAccessExpression ∧ containsKey m d.expressionText then
    if ¬ (d.nameText ∈ getMembers m d.expressionText) then
      recordMember m d.expressionText d.nameText
    else some m
  else if d.kind = SyntaxKind.elementAccessExpression ∧ containsKey m d.expressionText
      ∧ d.argumentExpression.isSome then
    match d.argumentExpression with
    | none => some m
    | some argumentExpression =>
      match usersPrincipalStep m d argumentExpression with
      | none => none
      | some m1 => literalIndexStep m1 d argumentExpression
  else some m

mutual

/-- `visitNodes`: process one node, then recurse into its children. -/
def visitNodes (m : RefMap) : Node → Option RefMap
  | Node.node d children =>
    match visitStep m d with
    | none => none
    | some m1 => visitNodesList m1 children

/-- `ts.forEachChild(node, visitNodes)`: thread the map through the
children in source order. -/
def visitNodesList (m : RefMap) : List Node → Option RefMap
  | [] => some m
  | c :: cs =>
    match visitNodes m c with
    | none => none
    | some m1 => visitNodesList m1 cs

end

/-- `getPropertiesOrAttributesOf(fileName, parentObjects)`: initialise one
empty set per requested root name, then, when the program and the file
resolve, run `visitNodes` over every child of the source file. -/
def getPropertiesOrAttributesOf (ls : LanguageServiceModel) (fileName : String)
    (parentObjects : List String) : Option RefMap :=
  let referencedEntities := initRefs parentObjects
  match ls.program with
  | none => some referencedEntities
  | some program =>
    match getSourceFile program fileName with
    | none => some referencedEntities
    | some currentFile => visitNodesList referencedEntities currentFile.children

/-! ## Outline builder: `getOutline` -/

/-- `CodeOutlineTokenKind` from the worker. -/
inductive CodeOutlineTokenKind where
  | Class
  | ObjectLiteral
  | Method
  | Constructor
  | Function
  | Get
  | Set
deriving DecidableEq, Repr

/-- `CodeOutlineToken` from the worker. -/
structure CodeOutlineToken where
  name : String
  kind : CodeOutlineTokenKind
  ordinal : Nat
  line : Nat
  indentAmount : Nat
deriving DecidableEq, Repr

/-- The mutable traversal state of one `getOutline` call: the `ordinal`
counter, the `indentation` depth and the `tokens` array, all captured by
the nested closures of the source. -/
structure OutlineState where
  ordinal : Nat
  indentation : Nat
  tokens : List CodeOutlineToken
deriving DecidableEq, Repr

/-- JavaScript `a || b` on an optional string: `undefined` and `""` are
falsy. -/
def jsOrString (a : Option String) (b : String) : String :=
  match a with
  | some s => if s = "" then b else s
  | none => b

/-- JavaScript `a || b` on a string: `""` is falsy. -/
def jsOrS (a : String) (b : String) : String :=
  if a = "" then b else a

/-- `getEscapedTextOfIdentifierOrLiteral`: an identifier contributes its
`escapedText`, any other name-like node its `text`. -/
def getEscapedTextOfIdentifierOrLiteral (node : Option NameLike) : Option String :=
  match node with
  | some n => if n.kind = SyntaxKind.identifier then n.escapedText else n.text
  | none => none

/-- `arr[arr.length - 1]` on the result of `String.split`, which is never
empty. -/
def lastToken (nameTokens : List String) : String :=
  nameTokens.getLastD ""

/-- One iteration of the `properties.forEach` loop of `extractLiteral`:
the running `methodCount` and `didExtractLiteral` flag updated by one
property. -/
def literalPropStep (acc : Nat × Bool) (property : PropInfo) : Nat × Bool :=
  match property.kind with
  | SyntaxKind.methodDeclaration => (acc.1 + 1, acc.2)
  | SyntaxKind.getAccessor => (acc.1, true)
  | SyntaxKind.setAccessor => (acc.1, true)
  | SyntaxKind.propertyAssignment =>
    (match property.initializer with
     | some k =>
       if k = SyntaxKind.functionDeclaration ∨ k = SyntaxKind.functionExpression then
         (acc.1 + 1, acc.2)
       else acc
     | none => acc)
  | _ => acc

/-- The `didExtractLiteral` flag of `extractLiteral`, computed by the
`properties.forEach` loop followed by the `methodCount > 0` check. -/
def didExtractLiteralOf (liternalNode : NodeData) : Bool :=
  let counts := liternalNode.properties.foldl literalPropStep (0, false)
  let methodCount := counts.1
  counts.2 || decide (methodCount > 0)

/-- The name computed by `extractLiteral` for the emitted token: bound
name for variable declarations and property assignments, callee text plus
`()` for call expressions, left-hand-side text for plain `=` assignments. -/
def literalParentName (parentNode : Option NodeData) : String :=
  match parentNode with
  | some parent =>
    if parent.kind = SyntaxKind.variableDeclaration
        ∨ parent.kind = SyntaxKind.propertyAssignment then
      jsOrString (getEscapedTextOfIdentifierOrLiteral parent.name) ""
    else if parent.kind = SyntaxKind.callExpression then
      let name := jsOrString (parent.callExpressionFullText.map (fun s => s.trim)) ""
      if name ≠ "" then lastToken (name.splitOn "\n") ++ "()" else name
    else if parent.kind = SyntaxKind.binaryExpression then
      if parent.operatorTokenText = some "=" then
        match parent.left.kind with
        | SyntaxKind.variableDeclaration =>
          jsOrString (getEscapedTextOfIdentifierOrLiteral parent.left.name) ""
        | SyntaxKind.propertyAccessExpression =>
          lastToken (parent.left.fullText.trim.splitOn "\n")
        | _ => ""
      else ""
    else ""
  | none => ""

/-- `extractLiteral`: decide whether an object literal qualifies (at least
one accessor, or a positive count of method declarations and of property
assignments whose initializer is a function declaration/expression); when
it does, push one `ObjectLiteral` token whose name is computed from the
literal's parent.  Returns the updated state and `didExtractLiteral`. -/
def extractLiteral (parentNode : Option NodeData) (st : OutlineState)
    (liternalNode : NodeData) : OutlineState × Bool :=
  if didExtractLiteralOf liternalNode then
    let ordinal := st.ordinal + 1
    let name : String := literalParentName parentNode
    ({ st with
        ordinal := ordinal,
        tokens := st.tokens ++ [{
          name := jsOrS name "\x7b\x7d",
          kind := CodeOutlineTokenKind.ObjectLiteral,
          ordinal := ordinal,
          line := liternalNode.startLine,
          indentAmount := st.indentation }] }, true)
  else (st, false)

/-- `extractClass`: push one `Class` token, named by the class's own
identifier or the placeholder when anonymous. -/
def extractClass (st : OutlineState) (classNode : NodeData) : OutlineState :=
  let ordinal := st.ordinal + 1
  match classNode.name with
  | some _ =>
    { st with
        ordinal := ordinal,
        tokens := st.tokens ++ [{
          name := jsOrString (getEscapedTextOfIdentifierOrLiteral classNode.name) "",
          kind := CodeOutlineTokenKind.Class,
          ordinal := ordinal,
          line := classNode.startLine,
          indentAmount := st.indentation }] }
  | none =>
    { st with
        ordinal := ordinal,
        tokens := st.tokens ++ [{
          name := "\x7b\x7d",
          kind := CodeOutlineTokenKind.Class,
          ordinal := ordinal,
          line := classNode.startLine,
          indentAmount := st.indentation }] }

/-- `extractMethod`: bump the ordinal, resolve a fallback name (and the
`isMethodKind` flag) from the parent node, then push one token whose kind
is selected by the node's own category; categories outside the switch
(notably a method signature) push nothing. -/
def extractMethod (parentNode : Option NodeData) (st : OutlineState)
    (methodNode : NodeData) : OutlineState :=
  let ordinal := st.ordinal + 1
  let line := methodNode.startLine
  let nameAndFlag : String × Bool :=
    match parentNode with
    | some parent =>
      if parent.kind = SyntaxKind.propertyAssignment then
        (jsOrString (getEscapedTextOfIdentifierOrLiteral parent.name) "", true)
      else if parent.kind = SyntaxKind.variableDeclaration then
        (jsOrString (getEscapedTextOfIdentifierOrLiteral parent.name) "", false)
      else if parent.kind = SyntaxKind.callExpression then
        let name := jsOrString (parent.callExpressionFullText.map (fun s => s.trim)) ""
        (if name ≠ "" then (lastToken (name.splitOn "\n")).trim ++ "()" else name, false)
      else if parent.kind = SyntaxKind.binaryExpression then
        (if parent.operatorTokenText = some "=" then
          match parent.left.kind with
          | SyntaxKind.variableDeclaration =>
            jsOrString (getEscapedTextOfIdentifierOrLiteral parent.left.name) ""
          | SyntaxKind.propertyAccessExpression =>
            (lastToken (parent.left.fullText.trim.splitOn "\n")).trim
          | _ => ""
        else "", false)
      else ("", false)
    | none => ("", false)
  let name := nameAndFlag.1
  let isMethodKind := nameAndFlag.2
  match methodNode.kind with
  | SyntaxKind.constructorKeyword =>
    { st with
        ordinal := ordinal,
        tokens := st.tokens ++ [{
          name := "constructor ()",
          kind := CodeOutlineTokenKind.Constructor,
          ordinal := ordinal, line := line, indentAmount := st.indentation }] }
  | SyntaxKind.methodDeclaration =>
    { st with
        ordinal := ordinal,
        tokens := st.tokens ++ [{
          name := jsOrString (getEscapedTextOfIdentifierOrLiteral methodNode.name) "\x7b\x7d",
          kind := CodeOutlineTokenKind.Method,
          ordinal := ordinal, line := line, indentAmount := st.indentation }] }
  | SyntaxKind.functionExpression =>
    { st with
        ordinal := ordinal,
        tokens := st.tokens ++ [{
          name := jsOrString (getEscapedTextOfIdentifierOrLiteral methodNode.name)
            (jsOrS name "\x7b\x7d"),
          kind := if isMethodKind then CodeOutlineTokenKind.Method
            else CodeOutlineTokenKind.Function,
          ordinal := ordinal, line := line, indentAmount := st.indentation }] }
  | SyntaxKind.functionDeclaration =>
    { st with
        ordinal := ordinal,
        tokens := st.tokens ++ [{
          name := jsOrString (getEscapedTextOfIdentifierOrLiteral methodNode.name)
            (jsOrS name "\x7b\x7d"),
          kind := if isMethodKind then CodeOutlineTokenKind.Method
            else CodeOutlineTokenKind.Function,
          ordinal := ordinal, line := line, indentAmount := st.indentation }] }
  | SyntaxKind.getAccessor =>
    { st with
        ordinal := ordinal,
        tokens := st.tokens ++ [{
          name := jsOrString (getEscapedTextOfIdentifierOrLiteral methodNode.name) "()",
          kind := CodeOutlineTokenKind.Get,
          ordinal := ordinal, line := line, indentAmount := st.indentation }] }
  | SyntaxKind.setAccessor =>
    { st with
        ordinal := ordinal,
        tokens := st.tokens ++ [{
          name := jsOrString (getEscapedTextOfIdentifierOrLiteral methodNode.name) "()",
          kind := CodeOutlineTokenKind.Set,
          ordinal := ordinal, line := line, indentAmount := st.indentation }] }
  | SyntaxKind.arrowFunction =>
    { st with
        ordinal := ordinal,
        tokens := st.tokens ++ [{
          name := jsOrString (getEscapedTextOfIdentifierOrLiteral methodNode.name)
            (jsOrS name "() => \x7b\x7d"),
          kind := CodeOutlineTokenKind.Function,
          ordinal := ordinal, line := line, indentAmount := st.indentation }] }
  | _ => { st with ordinal := ordinal }

/-- The dispatch at the top of `buildOutline`: run the extractor selected
by the node's category and apply `indentation += 1` when the category is
structural; returns the updated state and `didIndent`. -/
def outlineDispatch (parentNode : Option NodeData) (st : OutlineState)
    (d : NodeData) : OutlineState × Bool :=
  match d.kind with
  | SyntaxKind.objectLiteralExpression =>
    let r := extractLiteral parentNode st d
    if r.2 then ({ r.1 with indentation := r.1.indentation + 1 }, true) else (r.1, false)
  | SyntaxKind.classExpression =>
    let st1 := extractClass st d
    ({ st1 with indentation := st1.indentation + 1 }, true)
  | SyntaxKind.classDeclaration =>
    let st1 := extractClass st d
    ({ st1 with indentation := st1.indentation + 1 }, true)
  | SyntaxKind.methodDeclaration =>
    let st1 := extractMethod parentNode st d
    ({ st1 with indentation := st1.indentation + 1 }, true)
  | SyntaxKind.methodSignature =>
    let st1 := extractMethod parentNode st d
    ({ st1 with indentation := st1.indentation + 1 }, true)
  | SyntaxKind.functionDeclaration =>
    let st1 := extractMethod parentNode st d
    ({ st1 with indentation := st1.indentation + 1 }, true)
  | SyntaxKind.functionExpression =>
    let st1 := extractMethod parentNode st d
    ({ st1 with indentation := st1.indentation + 1 }, true)
  | SyntaxKind.getAccessor =>
    let st1 := extractMethod parentNode st d
    ({ st1 with indentation := st1.indentation + 1 }, true)
  | SyntaxKind.setAccessor =>
    let st1 := extractMethod parentNode st d
    ({ st1 with indentation := st1.indentation + 1 }, true)
  | SyntaxKind.constructorKeyword =>
    let st1 := extractMethod parentNode st d
    ({ st1 with indentation := st1.indentation + 1 }, true)
  | SyntaxKind.arrowFunction =>
    let st1 := extractMethod parentNode st d
    ({ st1 with indentation := st1.indentation + 1 }, true)
  | _ => (st, false)

mutual

/-- `buildOutline`: dispatch on the node, recurse into every child, then
undo the indentation increase when one was made. -/
def buildOutline (parentNode : Option NodeData) (st : OutlineState) :
    Node → OutlineState
  | Node.node d children =>
    let r := outlineDispatch parentNode st d
    let st2 := buildOutlineList d r.1 children
    if r.2 then { st2 with indentation := st2.indentation - 1 } else st2

/-- `ts.forEachChild(node, buildOutline)`: thread the state through the
children in source order; each child sees this node as its parent. -/
def buildOutlineList (d : NodeData) (st : OutlineState) :
    List Node → OutlineState
  | [] => st
  | c :: cs => buildOutlineList d (buildOutline (some d) st c) cs

end

/-- `getOutline(fileName, parentObjects)`: when the program and the file
resolve, run `buildOutline` on the source-file node itself (which carries
no parent) with both counters at zero, and return the token array; the
`parentObjects` argument is accepted but never read. -/
def getOutline (ls : LanguageServiceModel) (fileName : String)
    (parentObjects : List String) : List CodeOutlineToken :=
  match ls.program with
  | none => []
  | some program =>
    match getSourceFile program fileName with
    | none => []
    | some currentFile =>
      (buildOutline none { ordinal := 0, indentation := 0, tokens := [] } currentFile).tokens

/-! ## Lemmas about the reference extractor -/

theorem containsKey_nil (k : String) : containsKey [] k = false := rfl

theorem containsKey_cons (e : String × List String) (t : RefMap) (k : String) :
    containsKey (e :: t) k = (decide (e.1 = k) || containsKey t k) := by
  simp [containsKey]

theorem containsKey_append (m l : RefMap) (k : String) :
    containsKey (m ++ l) k = (containsKey m k || containsKey l k) := by
  simp [containsKey, List.any_append]

theorem containsKey_setMemberList (m : RefMap) (k x j : String) :
    containsKey (setMemberList m k x) j = containsKey m j := by
  induction m with
  | nil => rfl
  | cons e t ih =>
    simp only [setMemberList, containsKey_cons, ih]
    split <;> simp

theorem containsKey_setEmptyList (m : RefMap) (k j : String) :
    containsKey (setEmptyList m k) j = containsKey m j := by
  induction m with
  | nil => rfl
  | cons e t ih =>
    simp only [setEmptyList, containsKey_cons, ih]
    split <;> simp

theorem containsKey_setEmpty (m : RefMap) (k j : String) :
    containsKey (setEmpty m k) j = (containsKey m j || decide (k = j)) := by
  unfold setEmpty
  split
  · rename_i h
    rw [containsKey_setEmptyList]
    by_cases hkj : k = j
    · subst hkj
      simp [h]
    · simp [hkj]
  · rw [containsKey_append]
    simp [containsKey_cons, containsKey_nil]

theorem containsKey_foldl_setEmpty (roots : List String) :
    ∀ (m : RefMap) (k : String),
      containsKey (roots.foldl setEmpty m) k = (containsKey m k || decide (k ∈ roots)) := by
  induction roots with
  | nil => intro m k; simp
  | cons r t ih =>
    intro m k
    simp only [List.foldl_cons, ih, containsKey_setEmpty, List.mem_cons]
    by_cases hrk : r = k
    · subst hrk; simp
    · simp [hrk, Ne.symm hrk]

theorem containsKey_initRefs (roots : List String) (k : String) :
    containsKey (initRefs roots) k = true ↔ k ∈ roots := by
  unfold initRefs
  rw [containsKey_foldl_setEmpty]
  simp [containsKey_nil]

theorem mem_addMember_self (s : List String) (x : String) : x ∈ addMember s x := by
  unfold addMember
  split
  · assumption
  · simp

theorem mem_addMember_of_mem (s : List String) (x y : String) (h : y ∈ s) :
    y ∈ addMember s x := by
  unfold addMember
  split
  · assumption
  · simp [h]

theorem setMember_head (e : String × List String) (k x : String) :
    (if e.1 = k then (e.1, addMember e.2 x) else e)
      = (e.1, if e.1 = k then addMember e.2 x else e.2) := by
  split <;> simp

theorem mem_getMembers_setMemberList (m : RefMap) (k x j y : String)
    (h : y ∈ getMembers m j) : y ∈ getMembers (setMemberList m k x) j := by
  induction m with
  | nil => simpa [getMembers, setMemberList] using h
  | cons e t ih =>
    simp only [setMemberList, setMember_head, getMembers] at h ⊢
    by_cases hej : e.1 = j
    · rw [if_pos hej] at h ⊢
      split
      · exact mem_addMember_of_mem _ _ _ h
      · exact h
    · rw [if_neg hej] at h ⊢
      exact ih h

theorem self_mem_getMembers_setMemberList (m : RefMap) (k x : String)
    (h : containsKey m k = true) : x ∈ getMembers (setMemberList m k x) k := by
  induction m with
  | nil => cases h
  | cons e t ih =>
    simp only [setMemberList, setMember_head, getMembers]
    by_cases hek : e.1 = k
    · simp only [if_pos hek]
      exact mem_addMember_self _ _
    · simp only [if_neg hek]
      rw [containsKey_cons] at h
      simp [hek] at h
      exact ih h

theorem recordMember_eq_some {m m' : RefMap} {k x : String}
    (h : recordMember m k x = some m') :
    containsKey m k = true ∧ m' = setMemberList m k x := by
  unfold recordMember at h
  split at h
  · rename_i hc
    exact ⟨hc, (Option.some.injEq _ _ ▸ h).symm⟩
  · cases h

theorem recordMember_some_of_containsKey {m : RefMap} {k : String} (x : String)
    (h : containsKey m k = true) :
    recordMember m k x = some (setMemberList m k x) := by
  unfold recordMember
  simp [h]

/-- One traversal step or a whole traversal only grows the reference map:
the key set is unchanged and every recorded member stays recorded. -/
def RefExtends (m m' : RefMap) : Prop :=
  (∀ j, containsKey m' j = containsKey m j)
    ∧ (∀ j y, y ∈ getMembers m j → y ∈ getMembers m' j)

theorem refExtends_refl (m : RefMap) : RefExtends m m :=
  ⟨fun _ => rfl, fun _ _ h => h⟩

theorem refExtends_trans {m1 m2 m3 : RefMap}
    (h12 : RefExtends m1 m2) (h23 : RefExtends m2 m3) : RefExtends m1 m3 :=
  ⟨fun j => (h23.1 j).trans (h12.1 j),
   fun j y h => h23.2 j y (h12.2 j y h)⟩

theorem refExtends_setMemberList (m : RefMap) (k x : String) :
    RefExtends m (setMemberList m k x) :=
  ⟨fun j => containsKey_setMemberList m k x j,
   fun j y h => mem_getMembers_setMemberList m k x j y h⟩

theorem refExtends_of_recordMember {m m' : RefMap} {k x : String}
    (h : recordMember m k x = some m') : RefExtends m m' := by
  obtain ⟨-, rfl⟩ := recordMember_eq_some h
  exact refExtends_setMemberList m k x

theorem usersPrincipalStep_spec (m : RefMap) (d : NodeData) (a : ArgInfo)
    (hc : containsKey m d.expressionText = true) :
    ∃ m1, usersPrincipalStep m d a = some m1 ∧ RefExtends m m1 := by
  unfold usersPrincipalStep
  split
  · split
    · rename_i hsent
      have hu : containsKey m "Users" = true := hsent.1 ▸ hc
      rw [recordMember_some_of_containsKey "System" hu]
      exact ⟨_, rfl, refExtends_setMemberList m "Users" "System"⟩
    · exact ⟨m, rfl, refExtends_refl m⟩
  · exact ⟨m, rfl, refExtends_refl m⟩

theorem literalIndexStep_spec (m1 : RefMap) (d : NodeData) (a : ArgInfo)
    (hc : containsKey m1 d.expressionText = true) :
    ∃ m2, literalIndexStep m1 d a = some m2 ∧ RefExtends m1 m2 := by
  unfold literalIndexStep
  split
  · cases htv : a.typeValue with
    | some v =>
      simp only [recordMember_some_of_containsKey v hc]
      exact ⟨_, rfl, refExtends_setMemberList m1 d.expressionText v⟩
    | none => exact ⟨m1, rfl, refExtends_refl m1⟩
  · split
    · rw [recordMember_some_of_containsKey (sliceQuotes a.text) hc]
      exact ⟨_, rfl, refExtends_setMemberList m1 d.expressionText (sliceQuotes a.text)⟩
    · exact ⟨m1, rfl, refExtends_refl m1⟩

theorem visitStep_spec (m : RefMap) (d : NodeData) :
    ∃ m', visitStep m d = some m' ∧ RefExtends m m' := by
  unfold visitStep
  split
  · rename_i h1
    split
    · rw [recordMember_some_of_containsKey d.nameText h1.2]
      exact ⟨_, rfl, refExtends_setMemberList m d.expressionText d.nameText⟩
    · exact ⟨m, rfl, refExtends_refl m⟩
  · split
    · rename_i h2
      cases harg : d.argumentExpression with
      | none => exact ⟨m, rfl, refExtends_refl m⟩
      | some a =>
        obtain ⟨m1, hm1, hext1⟩ := usersPrincipalStep_spec m d a h2.2.1
        have hc1 : containsKey m1 d.expressionText = true := by
          rw [hext1.1]; exact h2.2.1
        obtain ⟨m2, hm2, hext2⟩ := literalIndexStep_spec m1 d a hc1
        simp only [hm1, hm2]
        exact ⟨m2, rfl, refExtends_trans hext1 hext2⟩
    · exact ⟨m, rfl, refExtends_refl m⟩

/-- Simultaneous induction over trees and forests of children. -/
theorem node_forest_induction (P : Node → Prop) (Q : List Node → Prop)
    (hnode : ∀ d cs, Q cs → P (Node.node d cs))
    (hnil : Q [])
    (hcons : ∀ c cs, P c → Q cs → Q (c :: cs)) :
    (∀ n, P n) ∧ (∀ cs, Q cs) :=
  ⟨fun n => Node.rec hnode hnil hcons n,
   fun cs => List.rec hnil (fun c cs ih => hcons c cs (Node.rec hnode hnil hcons c) ih) cs⟩

theorem visitNodes_spec :
    (∀ n : Node, ∀ m : RefMap, ∃ m', visitNodes m n = some m' ∧ RefExtends m m')
      ∧ (∀ cs : List Node, ∀ m : RefMap,
          ∃ m', visitNodesList m cs = some m' ∧ RefExtends m m') := by
  refine node_forest_induction _ _ ?_ ?_ ?_
  · intro d cs ih m
    obtain ⟨m1, hm1, hext1⟩ := visitStep_spec m d
    obtain ⟨m2, hm2, hext2⟩ := ih m1
    refine ⟨m2, ?_, refExtends_trans hext1 hext2⟩
    simp only [visitNodes, hm1, hm2]
  · intro m
    exact ⟨m, rfl, refExtends_refl m⟩
  · intro c cs ihc ihcs m
    obtain ⟨m1, hm1, hext1⟩ := ihc m
    obtain ⟨m2, hm2, hext2⟩ := ihcs m1
    refine ⟨m2, ?_, refExtends_trans hext1 hext2⟩
    simp only [visitNodesList, hm1, hm2]

/-! ## Concrete trees used to instantiate the theorems -/

/-- A node record with every accessor at its least informative value. -/
def blankData : NodeData :=
  { kind := SyntaxKind.unknownKind, expressionText := "", nameText := "",
    argumentExpression := none, name := none, startLine := 0, properties := [],
    callExpressionFullText := none, operatorTokenText := none,
    left := { kind := SyntaxKind.unknownKind, name := none, fullText := "" } }

/-- An identifier name child with the given text. -/
def identName (s : String) : NameLike :=
  { kind := SyntaxKind.identifier, escapedText := some s, text := some s }

/-- `Things.sensor`: a member access off the root `Things`. -/
def thingsAccessData : NodeData :=
  { blankData with
      kind := SyntaxKind.propertyAccessExpression,
      expressionText := "Things",
      nameText := "sensor" }

/-- A file whose only statement is `Things.sensor`. -/
def thingsFile : Node :=
  Node.node { blankData with kind := SyntaxKind.sourceFile }
    [Node.node thingsAccessData []]

/-- A language service exposing `thingsFile` under the name `demo.ts`. -/
def thingsLS : LanguageServiceModel :=
  { program := some { sourceFiles := [("demo.ts", thingsFile)] } }

/-- A language service whose program has no source files at all. -/
def emptyProgramLS : LanguageServiceModel :=
  { program := some { sourceFiles := [] } }

/-- The bare identifier `principal` used as an element-access index. -/
def principalArg : ArgInfo :=
  { kind := SyntaxKind.identifier, text := "principal", typeValue := none }

/-- `Users[principal]`: the sentinel element access. -/
def usersAccessData : NodeData :=
  { blankData with
      kind := SyntaxKind.elementAccessExpression,
      expressionText := "Users",
      argumentExpression := some principalArg }

/-- The bare identifier `someRuntimeVar` used as an element-access index. -/
def someRuntimeArg : ArgInfo :=
  { kind := SyntaxKind.identifier, text := "someRuntimeVar", typeValue := none }

/-- `Things[someRuntimeVar]`: an element access with a runtime index. -/
def runtimeIndexData : NodeData :=
  { blankData with
      kind := SyntaxKind.elementAccessExpression,
      expressionText := "Things",
      argumentExpression := some someRuntimeArg }

/-! ## Claims about the reference extractor -/

/-- C1: for every input list `rootNames` and every file,
`getPropertiesOrAttributesOf` returns a map whose key set is exactly the
set of names in `rootNames` (each key possibly mapped to an empty set),
and no key is ever added or removed by any step or any subtree traversal. -/
theorem C1_reference_map_key_completeness :
    (∀ (m : RefMap) (d : NodeData) (m' : RefMap), visitStep m d = some m' →
        ∀ k, containsKey m' k = containsKey m k)
    ∧ (∀ (n : Node) (m m' : RefMap), visitNodes m n = some m' →
        ∀ k, containsKey m' k = containsKey m k)
    ∧ (∀ (ls : LanguageServiceModel) (fileName : String) (parentObjects : List String)
        (res : RefMap),
        getPropertiesOrAttributesOf ls fileName parentObjects = some res →
        ∀ k, containsKey res k = true ↔ k ∈ parentObjects) := by
  have hinit : ∀ (parentObjects : List String) (k : String),
      containsKey (initRefs parentObjects) k = true ↔ k ∈ parentObjects :=
    fun parentObjects k => containsKey_initRefs parentObjects k
  refine ⟨?_, ?_, ?_⟩
  · intro m d m' h k
    obtain ⟨m'', h'', hext⟩ := visitStep_spec m d
    rw [h] at h''
    injection h'' with he
    subst he
    exact hext.1 k
  · intro n m m' h k
    obtain ⟨m'', h'', hext⟩ := visitNodes_spec.1 n m
    rw [h] at h''
    injection h'' with he
    subst he
    exact hext.1 k
  · intro ls fileName parentObjects res h k
    unfold getPropertiesOrAttributesOf at h
    cases hp : ls.program with
    | none =>
      simp only [hp] at h
      injection h with he
      rw [← he]
      exact hinit parentObjects k
    | some program =>
      simp only [hp] at h
      cases hf : getSourceFile program fileName with
      | none =>
        simp only [hf] at h
        injection h with he
        rw [← he]
        exact hinit parentObjects k
      | some currentFile =>
        simp only [hf] at h
        obtain ⟨m'', h'', hext⟩ :=
          visitNodes_spec.2 currentFile.children (initRefs parentObjects)
        rw [h] at h''
        injection h'' with he
        subst he
        rw [hext.1 k]
        exact hinit parentObjects k

/-- Witness for C1 at a concrete program: `Things.sensor` analysed with
root names `["Things"]`. -/
theorem C1_reference_map_key_completeness_witness :
    containsKey [("Things", ["sensor"])] "Things" = true ↔ "Things" ∈ ["Things"] :=
  C1_reference_map_key_completeness.2.2 thingsLS "demo.ts" ["Things"]
    [("Things", ["sensor"])] (by decide) "Things"

/-- C2 counterexample: with root names `["Things"]` and a file that does
not resolve, `getPropertiesOrAttributesOf` returns the initialised map
`[("Things", [])]`, which is not the empty map the claim promises. -/
theorem C2_empty_map_counterexample :
    resolveFile emptyProgramLS "missing.ts" = none
    ∧ getPropertiesOrAttributesOf emptyProgramLS "missing.ts" ["Things"]
        = some [("Things", [])]
    ∧ ([("Things", ([] : List String))] : RefMap) ≠ ([] : RefMap) := by
  refine ⟨rfl, by decide, by decide⟩

/-- C2 (amended): when the file identifier cannot be resolved to a tree,
`getOutline` returns the empty sequence and `getPropertiesOrAttributesOf`
returns the initialised map (every requested root name mapped to an empty
set); neither operation signals an error. -/
theorem C2_unresolved_file_defaults (ls : LanguageServiceModel) (fileName : String)
    (parentObjects : List String) (h : resolveFile ls fileName = none) :
    getOutline ls fileName parentObjects = []
    ∧ getPropertiesOrAttributesOf ls fileName parentObjects
        = some (initRefs parentObjects) := by
  unfold resolveFile at h
  unfold getOutline getPropertiesOrAttributesOf
  cases hp : ls.program with
  | none =>
    simp only [hp]
    exact ⟨trivial, trivial⟩
  | some program =>
    simp only [hp] at h
    simp only [hp, h]
    exact ⟨trivial, trivial⟩

/-- Witness for C2 (amended) at a concrete unresolvable file. -/
theorem C2_unresolved_file_defaults_witness :
    getOutline emptyProgramLS "missing.ts" ["Things"] = []
    ∧ getPropertiesOrAttributesOf emptyProgramLS "missing.ts" ["Things"]
        = some (initRefs ["Things"]) :=
  C2_unresolved_file_defaults emptyProgramLS "missing.ts" ["Things"] rfl

/-- C7: an element access whose base text is `"Users"` and whose index is
the bare identifier `principal` records the literal member `"System"`
under the key `"Users"` (present whenever `"Users"` is among the caller's
root names, as the second conjunct states), independent of any runtime
value of the identifier. -/
theorem C7_users_principal_sentinel :
    (∀ (m : RefMap) (d : NodeData) (cs : List Node) (a : ArgInfo),
      d.kind = SyntaxKind.elementAccessExpression →
      d.expressionText = "Users" →
      d.argumentExpression = some a →
      a.kind = SyntaxKind.identifier →
      a.text = "principal" →
      containsKey m "Users" = true →
      ∃ m', visitNodes m (Node.node d cs) = some m'
        ∧ "System" ∈ getMembers m' "Users")
    ∧ (∀ parentObjects : List String,
        containsKey (initRefs parentObjects) "Users" = true ↔ "Users" ∈ parentObjects) := by
  constructor
  · intro m d cs a hkind hexpr harg hak hat hc
    have hstep : visitStep m d = some (setMemberList m "Users" "System") := by
      unfold visitStep
      have h1 : ¬(d.kind = SyntaxKind.propertyAccessExpression
          ∧ containsKey m d.expressionText = true) := by
        rw [hkind]; simp
      have h2 : d.kind = SyntaxKind.elementAccessExpression
          ∧ containsKey m d.expressionText = true
          ∧ d.argumentExpression.isSome = true :=
        ⟨hkind, by rw [hexpr]; exact hc, by rw [harg]; rfl⟩
      rw [if_neg h1, if_pos h2]
      simp only [harg]
      have hup : usersPrincipalStep m d a = some (setMemberList m "Users" "System") := by
        unfold usersPrincipalStep
        rw [if_pos hak, if_pos ⟨hexpr, hat⟩]
        exact recordMember_some_of_containsKey "System" hc
      simp only [hup]
      unfold literalIndexStep
      have hnpa : ¬(a.kind = SyntaxKind.propertyAccessExpression) := by rw [hak]; simp
      have hnsl : ¬(a.kind = SyntaxKind.stringLiteral) := by rw [hak]; simp
      rw [if_neg hnpa, if_neg hnsl]
    obtain ⟨m', hm', hext⟩ := visitNodes_spec.2 cs (setMemberList m "Users" "System")
    refine ⟨m', ?_, ?_⟩
    · simp only [visitNodes, hstep, hm']
    · exact hext.2 "Users" "System" (self_mem_getMembers_setMemberList m "Users" "System" hc)
  · intro parentObjects
    exact containsKey_initRefs parentObjects "Users"

/-- Witness for C7 at the concrete access `Users[principal]`. -/
theorem C7_users_principal_sentinel_witness :
    ∃ m', visitNodes [("Users", [])] (Node.node usersAccessData []) = some m'
      ∧ "System" ∈ getMembers m' "Users" :=
  C7_users_principal_sentinel.1 [("Users", [])] usersAccessData [] principalArg
    rfl rfl rfl rfl rfl (by decide)

/-- C8: an element access whose base is a key of the map but whose index
expression is neither the `Users[principal]` sentinel, nor a member access
with a literal-string-typed result, nor a string literal, records nothing:
the visit step returns the map unchanged and raises no error. -/
theorem C8_conservative_omission (m : RefMap) (d : NodeData) (a : ArgInfo)
    (hkind : d.kind = SyntaxKind.elementAccessExpression)
    (hck : containsKey m d.expressionText = true)
    (harg : d.argumentExpression = some a)
    (hsentinel : ¬(a.kind = SyntaxKind.identifier ∧ d.expressionText = "Users"
        ∧ a.text = "principal"))
    (hliteralType : ¬(a.kind = SyntaxKind.propertyAccessExpression
        ∧ a.typeValue.isSome = true))
    (hstr : a.kind ≠ SyntaxKind.stringLiteral) :
    visitStep m d = some m := by
  unfold visitStep
  have h1 : ¬(d.kind = SyntaxKind.propertyAccessExpression
      ∧ containsKey m d.expressionText = true) := by
    rw [hkind]; simp
  have h2 : d.kind = SyntaxKind.elementAccessExpression
      ∧ containsKey m d.expressionText = true
      ∧ d.argumentExpression.isSome = true :=
    ⟨hkind, hck, by rw [harg]; rfl⟩
  rw [if_neg h1, if_pos h2]
  simp only [harg]
  have hup : usersPrincipalStep m d a = some m := by
    unfold usersPrincipalStep
    by_cases hid : a.kind = SyntaxKind.identifier
    · have hs : ¬(d.expressionText = "Users" ∧ a.text = "principal") :=
        fun hsent => hsentinel ⟨hid, hsent.1, hsent.2⟩
      rw [if_pos hid, if_neg hs]
    · rw [if_neg hid]
  simp only [hup]
  unfold literalIndexStep
  by_cases hpa : a.kind = SyntaxKind.propertyAccessExpression
  · rw [if_pos hpa]
    cases htv : a.typeValue with
    | some v => exact absurd ⟨hpa, by rw [htv]; rfl⟩ hliteralType
    | none => simp only [htv]
  · rw [if_neg hpa, if_neg hstr]

/-- Witness for C8 at the concrete access `Things[someRuntimeVar]`. -/
theorem C8_conservative_omission_witness :
    visitStep [("Things", [])] runtimeIndexData = some [("Things", [])] :=
  C8_conservative_omission [("Things", [])] runtimeIndexData someRuntimeArg
    rfl (by decide) rfl (by decide) (by decide) (by decide)

/-! ## Lemmas about the outline builder -/

/-- Invariant carried by the outline traversal state: the collected tokens
have strictly increasing ordinals and each is bounded by the counter. -/
def OutlineInv (st : OutlineState) : Prop :=
  st.tokens.Pairwise (fun a b => a.ordinal < b.ordinal)
    ∧ ∀ t ∈ st.tokens, t.ordinal ≤ st.ordinal

/-- A traversal fragment only appends tokens, keeps the ordinal counter
non-decreasing, and every appended token has a fresh bounded ordinal. -/
def OrdTokOK (st st' : OutlineState) : Prop :=
  st.ordinal ≤ st'.ordinal
    ∧ ∃ L, st'.tokens = st.tokens ++ L
        ∧ L.Pairwise (fun a b => a.ordinal < b.ordinal)
        ∧ ∀ t ∈ L, st.ordinal < t.ordinal ∧ t.ordinal ≤ st'.ordinal

theorem ordTokOK_refl (st : OutlineState) : OrdTokOK st st :=
  ⟨le_refl _, [], by simp, by simp, by simp⟩

theorem ordTokOK_trans {st1 st2 st3 : OutlineState}
    (h12 : OrdTokOK st1 st2) (h23 : OrdTokOK st2 st3) : OrdTokOK st1 st3 := by
  obtain ⟨ho12, L1, hL1, hp1, hb1⟩ := h12
  obtain ⟨ho23, L2, hL2, hp2, hb2⟩ := h23
  refine ⟨le_trans ho12 ho23, L1 ++ L2, by rw [hL2, hL1, List.append_assoc], ?_, ?_⟩
  · rw [List.pairwise_append]
    exact ⟨hp1, hp2, fun a ha b hb => lt_of_le_of_lt (hb1 a ha).2 (hb2 b hb).1⟩
  · intro t ht
    rcases List.mem_append.mp ht with h | h
    · exact ⟨(hb1 t h).1, le_trans (hb1 t h).2 ho23⟩
    · exact ⟨lt_of_le_of_lt ho12 (hb2 t h).1, (hb2 t h).2⟩

theorem ordTokOK_inv {st st' : OutlineState}
    (h : OrdTokOK st st') (hinv : OutlineInv st) : OutlineInv st' := by
  obtain ⟨ho, L, hL, hp, hb⟩ := h
  constructor
  · rw [hL, List.pairwise_append]
    exact ⟨hinv.1, hp, fun a ha b hb' => lt_of_le_of_lt (hinv.2 a ha) (hb b hb').1⟩
  · intro t ht
    rw [hL] at ht
    rcases List.mem_append.mp ht with h | h
    · exact le_trans (hinv.2 t h) ho
    · exact (hb t h).2

/-- An outline state whose indentation was rewritten keeps its tokens and
ordinal, so `OrdTokOK` is unaffected. -/
theorem ordTokOK_setIndent {st st' : OutlineState} (h : OrdTokOK st st') (i : Nat) :
    OrdTokOK st { st' with indentation := i } := h

theorem extractClass_shape (st : OutlineState) (d : NodeData) :
    ∃ t : CodeOutlineToken,
      extractClass st d = { st with ordinal := st.ordinal + 1, tokens := st.tokens ++ [t] }
        ∧ t.kind = CodeOutlineTokenKind.Class
        ∧ t.ordinal = st.ordinal + 1
        ∧ t.indentAmount = st.indentation := by
  unfold extractClass
  cases hn : d.name with
  | some n => exact ⟨_, rfl, rfl, rfl, rfl⟩
  | none => exact ⟨_, rfl, rfl, rfl, rfl⟩

theorem extractMethod_shape (p : Option NodeData) (st : OutlineState) (d : NodeData) :
    ∃ L : List CodeOutlineToken,
      extractMethod p st d = { st with ordinal := st.ordinal + 1, tokens := st.tokens ++ L }
        ∧ (∀ t ∈ L, t.ordinal = st.ordinal + 1 ∧ t.indentAmount = st.indentation)
        ∧ L.length ≤ 1 := by
  unfold extractMethod
  cases hk : d.kind <;>
    first
      | (refine ⟨_, rfl, ?_, by simp⟩
         intro t ht
         rw [List.mem_singleton] at ht
         subst ht
         exact ⟨rfl, rfl⟩)
      | exact ⟨[], by rw [List.append_nil], by simp, by simp⟩

theorem extractLiteral_pos (p : Option NodeData) (st : OutlineState) (d : NodeData)
    (h : didExtractLiteralOf d = true) :
    extractLiteral p st d =
      ({ st with
          ordinal := st.ordinal + 1,
          tokens := st.tokens ++ [{
            name := jsOrS (literalParentName p) "\x7b\x7d",
            kind := CodeOutlineTokenKind.ObjectLiteral,
            ordinal := st.ordinal + 1,
            line := d.startLine,
            indentAmount := st.indentation }] }, true) := by
  unfold extractLiteral
  rw [if_pos h]

theorem extractLiteral_neg (p : Option NodeData) (st : OutlineState) (d : NodeData)
    (h : didExtractLiteralOf d = false) :
    extractLiteral p st d = (st, false) := by
  unfold extractLiteral
  rw [if_neg (by simp [h])]

theorem extractLiteral_snd (p : Option NodeData) (st : OutlineState) (d : NodeData) :
    (extractLiteral p st d).2 = didExtractLiteralOf d := by
  by_cases h : didExtractLiteralOf d = true
  · rw [extractLiteral_pos p st d h, h]
  · simp only [Bool.not_eq_true] at h
    rw [extractLiteral_neg p st d h, h]

theorem extractLiteral_cases (p : Option NodeData) (st : OutlineState) (d : NodeData) :
    ((extractLiteral p st d).2 = true →
      ∃ t : CodeOutlineToken,
        (extractLiteral p st d).1
          = { st with ordinal := st.ordinal + 1, tokens := st.tokens ++ [t] }
        ∧ t.kind = CodeOutlineTokenKind.ObjectLiteral
        ∧ t.ordinal = st.ordinal + 1
        ∧ t.indentAmount = st.indentation)
    ∧ ((extractLiteral p st d).2 = false → (extractLiteral p st d).1 = st) := by
  constructor
  · intro ht
    rw [extractLiteral_snd] at ht
    rw [extractLiteral_pos p st d ht]
    exact ⟨_, rfl, rfl, rfl, rfl⟩
  · intro hf
    rw [extractLiteral_snd] at hf
    rw [extractLiteral_neg p st d hf]

/-- The contribution of one property to `methodCount`. -/
def methodPropWeight (pr : PropInfo) : Nat :=
  match pr.kind with
  | SyntaxKind.methodDeclaration => 1
  | SyntaxKind.propertyAssignment =>
    (match pr.initializer with
     | some k =>
       if k = SyntaxKind.functionDeclaration ∨ k = SyntaxKind.functionExpression then 1
       else 0
     | none => 0)
  | _ => 0

/-- The number of method-shaped properties of an object literal. -/
def countMethodProps : List PropInfo → Nat
  | [] => 0
  | pr :: t => methodPropWeight pr + countMethodProps t

theorem literalPropStep_fst (acc : Nat × Bool) (pr : PropInfo) :
    (literalPropStep acc pr).1 = acc.1 + methodPropWeight pr := by
  unfold literalPropStep methodPropWeight
  cases hk : pr.kind <;> simp only <;> try simp
  cases hi : pr.initializer with
  | some k =>
    by_cases hfe : k = SyntaxKind.functionDeclaration ∨ k = SyntaxKind.functionExpression
    · simp [hfe]
    · simp [hfe]
  | none => simp

theorem literalPropStep_snd (acc : Nat × Bool) (pr : PropInfo) :
    (literalPropStep acc pr).2
      = (acc.2 || (decide (pr.kind = SyntaxKind.getAccessor)
          || decide (pr.kind = SyntaxKind.setAccessor))) := by
  unfold literalPropStep
  cases hk : pr.kind <;> simp only <;> try simp
  cases hi : pr.initializer with
  | some k =>
    by_cases hfe : k = SyntaxKind.functionDeclaration ∨ k = SyntaxKind.functionExpression
    · simp [hfe]
    · simp [hfe]
  | none => simp

theorem foldl_literalPropStep_fst (l : List PropInfo) :
    ∀ (a : Nat) (b : Bool), (l.foldl literalPropStep (a, b)).1 = a + countMethodProps l := by
  induction l with
  | nil => intro a b; simp [countMethodProps]
  | cons pr t ih =>
    intro a b
    rw [List.foldl_cons]
    rcases hs : literalPropStep (a, b) pr with ⟨a', b'⟩
    have ha' : a' = a + methodPropWeight pr := by
      have := literalPropStep_fst (a, b) pr
      rw [hs] at this
      exact this
    rw [ih a' b', ha']
    simp only [countMethodProps]
    omega

theorem foldl_literalPropStep_snd (l : List PropInfo) :
    ∀ (a : Nat) (b : Bool),
      (l.foldl literalPropStep (a, b)).2
        = (b || l.any (fun pr =>
            decide (pr.kind = SyntaxKind.getAccessor)
              || decide (pr.kind = SyntaxKind.setAccessor))) := by
  induction l with
  | nil => intro a b; simp
  | cons pr t ih =>
    intro a b
    rw [List.foldl_cons, List.any_cons]
    rcases hs : literalPropStep (a, b) pr with ⟨a', b'⟩
    have hb' : b' = (b || (decide (pr.kind = SyntaxKind.getAccessor)
        || decide (pr.kind = SyntaxKind.setAccessor))) := by
      have := literalPropStep_snd (a, b) pr
      rw [hs] at this
      exact this
    rw [ih a' b', hb']
    simp [Bool.or_assoc]

theorem methodPropWeight_pos (pr : PropInfo) :
    0 < methodPropWeight pr
      ↔ pr.kind = SyntaxKind.methodDeclaration
        ∨ (pr.kind = SyntaxKind.propertyAssignment
           ∧ (pr.initializer = some SyntaxKind.functionDeclaration
              ∨ pr.initializer = some SyntaxKind.functionExpression)) := by
  unfold methodPropWeight
  cases hk : pr.kind <;> simp only [hk] <;> try simp
  cases hi : pr.initializer with
  | some k =>
    by_cases hfe : k = SyntaxKind.functionDeclaration ∨ k = SyntaxKind.functionExpression
    · rcases hfe with h | h <;> subst h <;> simp
    · push_neg at hfe
      simp [hfe.1, hfe.2]
  | none => simp

theorem countMethodProps_pos (l : List PropInfo) :
    0 < countMethodProps l
      ↔ ∃ pr ∈ l, pr.kind = SyntaxKind.methodDeclaration
          ∨ (pr.kind = SyntaxKind.propertyAssignment
             ∧ (pr.initializer = some SyntaxKind.functionDeclaration
                ∨ pr.initializer = some SyntaxKind.functionExpression)) := by
  induction l with
  | nil => simp [countMethodProps]
  | cons pr t ih =>
    simp only [countMethodProps, List.mem_cons]
    rw [add_pos_iff, methodPropWeight_pos, ih]
    constructor
    · rintro (h | ⟨q, hq, hp⟩)
      · exact ⟨pr, Or.inl rfl, h⟩
      · exact ⟨q, Or.inr hq, hp⟩
    · rintro ⟨q, (rfl | hq), hp⟩
      · exact Or.inl hp
      · exact Or.inr ⟨q, hq, hp⟩

/-- The qualification test of `extractLiteral`, characterised the way the
specification words it: at least one get/set accessor, or at least one
property assignment whose initializer is a function declaration or a
function expression, or at least one method declaration. -/
theorem didExtractLiteralOf_iff (d : NodeData) :
    didExtractLiteralOf d = true
      ↔ (∃ pr ∈ d.properties,
            pr.kind = SyntaxKind.getAccessor ∨ pr.kind = SyntaxKind.setAccessor)
        ∨ (∃ pr ∈ d.properties,
            pr.kind = SyntaxKind.propertyAssignment
              ∧ (pr.initializer = some SyntaxKind.functionDeclaration
                 ∨ pr.initializer = some SyntaxKind.functionExpression))
        ∨ (∃ pr ∈ d.properties, pr.kind = SyntaxKind.methodDeclaration) := by
  unfold didExtractLiteralOf
  rw [Bool.or_eq_true, foldl_literalPropStep_snd, foldl_literalPropStep_fst]
  simp only [Bool.false_or, decide_eq_true_eq, List.any_eq_true, Bool.or_eq_true,
    Nat.zero_add, gt_iff_lt]
  rw [countMethodProps_pos]
  constructor
  · rintro (⟨pr, hpr, hacc⟩ | ⟨pr, hpr, hm | hpa⟩)
    · exact Or.inl ⟨pr, hpr, hacc⟩
    · exact Or.inr (Or.inr ⟨pr, hpr, hm⟩)
    · exact Or.inr (Or.inl ⟨pr, hpr, hpa⟩)
  · rintro (⟨pr, hpr, hacc⟩ | ⟨pr, hpr, hpa⟩ | ⟨pr, hpr, hm⟩)
    · exact Or.inl ⟨pr, hpr, hacc⟩
    · exact Or.inr ⟨pr, hpr, Or.inr hpa⟩
    · exact Or.inr ⟨pr, hpr, Or.inl hm⟩

theorem outlineDispatch_ok (p : Option NodeData) (st : OutlineState) (d : NodeData) :
    OrdTokOK st (outlineDispatch p st d).1
    ∧ (outlineDispatch p st d).1.indentation
        = (if (outlineDispatch p st d).2 = true then st.indentation + 1
           else st.indentation) := by
  cases hk : d.kind
  case objectLiteralExpression =>
    by_cases hb : didExtractLiteralOf d = true
    · have hD : outlineDispatch p st d
          = ({ ordinal := st.ordinal + 1, indentation := st.indentation + 1,
               tokens := st.tokens ++ [{
                 name := jsOrS (literalParentName p) "\x7b\x7d",
                 kind := CodeOutlineTokenKind.ObjectLiteral,
                 ordinal := st.ordinal + 1,
                 line := d.startLine,
                 indentAmount := st.indentation }] }, true) := by
        simp only [outlineDispatch, hk, extractLiteral_pos p st d hb]
        simp
      simp only [hD]
      constructor
      · refine ⟨Nat.le_succ st.ordinal, _, rfl, List.pairwise_singleton _ _, ?_⟩
        intro t ht
        rw [List.mem_singleton] at ht
        subst ht
        exact ⟨Nat.lt_succ_self _, le_refl _⟩
      · simp
    · have hb' : didExtractLiteralOf d = false := by
        simp only [Bool.not_eq_true] at hb
        exact hb
      have hD : outlineDispatch p st d = (st, false) := by
        simp only [outlineDispatch, hk, extractLiteral_neg p st d hb']
        simp
      simp only [hD]
      exact ⟨ordTokOK_refl st, by simp⟩
  all_goals first
    | (obtain ⟨t, hE, hkc, hoc, hic⟩ := extractClass_shape st d
       have hD : outlineDispatch p st d
           = ({ ordinal := st.ordinal + 1, indentation := st.indentation + 1,
                tokens := st.tokens ++ [t] }, true) := by
         simp only [outlineDispatch, hk, hE]
       simp only [hD]
       constructor
       · refine ⟨Nat.le_succ st.ordinal, [t], rfl, List.pairwise_singleton _ _, ?_⟩
         intro u hu
         rw [List.mem_singleton] at hu
         subst hu
         rw [hoc]
         exact ⟨Nat.lt_succ_self _, le_refl _⟩
       · simp)
    | (obtain ⟨L, hE, hL, hlen⟩ := extractMethod_shape p st d
       have hD : outlineDispatch p st d
           = ({ ordinal := st.ordinal + 1, indentation := st.indentation + 1,
                tokens := st.tokens ++ L }, true) := by
         simp only [outlineDispatch, hk, hE]
       simp only [hD]
       constructor
       · refine ⟨Nat.le_succ st.ordinal, L, rfl, ?_, ?_⟩
         · match L, hlen with
           | [], _ => exact List.Pairwise.nil
           | [u], _ => exact List.pairwise_singleton _ _
           | u :: v :: w, h => exact absurd h (by simp)
         · intro u hu
           rw [(hL u hu).1]
           exact ⟨Nat.lt_succ_self _, le_refl _⟩
       · simp)
    | (have hD : outlineDispatch p st d = (st, false) := by
         simp only [outlineDispatch, hk]
       simp only [hD]
       exact ⟨ordTokOK_refl st, by simp⟩)

theorem buildOutline_ok :
    (∀ n : Node, ∀ (p : Option NodeData) (st : OutlineState),
        (buildOutline p st n).indentation = st.indentation
          ∧ OrdTokOK st (buildOutline p st n))
    ∧ (∀ cs : List Node, ∀ (d : NodeData) (st : OutlineState),
        (buildOutlineList d st cs).indentation = st.indentation
          ∧ OrdTokOK st (buildOutlineList d st cs)) := by
  refine node_forest_induction _ _ ?_ ?_ ?_
  · intro d cs ih p st
    have hbd := outlineDispatch_ok p st d
    rcases hr : outlineDispatch p st d with ⟨st1, di⟩
    rw [hr] at hbd
    obtain ⟨hOK1, hind1⟩ := hbd
    obtain ⟨hind2, hOK2⟩ := ih d st1
    have hstep : buildOutline p st (Node.node d cs)
        = (if di = true
            then { buildOutlineList d st1 cs with
                     indentation := (buildOutlineList d st1 cs).indentation - 1 }
            else buildOutlineList d st1 cs) := by
      simp only [buildOutline, hr]
    rw [hstep]
    cases di with
    | false =>
      rw [if_neg (show ¬(false = true) by decide)]
      constructor
      · rw [hind2]
        simpa using hind1
      · exact ordTokOK_trans hOK1 hOK2
    | true =>
      rw [if_pos rfl]
      constructor
      · show (buildOutlineList d st1 cs).indentation - 1 = st.indentation
        rw [hind2]
        have h1 : st1.indentation = st.indentation + 1 := by simpa using hind1
        omega
      · exact ordTokOK_setIndent (ordTokOK_trans hOK1 hOK2) _
  · intro d st
    refine ⟨by simp [buildOutlineList], ?_⟩
    simp only [buildOutlineList]
    exact ordTokOK_refl st
  · intro c cs ihc ihcs d st
    obtain ⟨hic, hOKc⟩ := ihc (some d) st
    obtain ⟨hil, hOKl⟩ := ihcs d (buildOutline (some d) st c)
    constructor
    · simp only [buildOutlineList]
      rw [hil, hic]
    · simp only [buildOutlineList]
      exact ordTokOK_trans hOKc hOKl

/-! ## Claims about the outline builder -/

/-- C5: every node that increased `indentAmount` has it restored once its
subtree traversal completes — the walk of any node, and of any child list,
leaves the indentation exactly as it found it — and the indentation after
the whole traversal from the initial state is 0. -/
theorem C5_indent_balance :
    (∀ (n : Node) (p : Option NodeData) (st : OutlineState),
        (buildOutline p st n).indentation = st.indentation)
    ∧ (∀ (cs : List Node) (d : NodeData) (st : OutlineState),
        (buildOutlineList d st cs).indentation = st.indentation)
    ∧ (∀ n : Node,
        (buildOutline none { ordinal := 0, indentation := 0, tokens := [] } n).indentation
          = 0) :=
  ⟨fun n p st => (buildOutline_ok.1 n p st).1,
   fun cs d st => (buildOutline_ok.2 cs d st).1,
   fun n => (buildOutline_ok.1 n none { ordinal := 0, indentation := 0, tokens := [] }).1⟩

/-- C6: the ordinals of the tokens returned by `getOutline` are strictly
increasing in sequence order, and the walk only ever appends tokens, so the
sequence order is the pre-order discovery order in which they were
created. -/
theorem C6_ordinal_monotonicity :
    (∀ (ls : LanguageServiceModel) (fileName : String) (parentObjects : List String),
        (getOutline ls fileName parentObjects).Pairwise (fun a b => a.ordinal < b.ordinal))
    ∧ (∀ (n : Node) (p : Option NodeData) (st : OutlineState),
        ∃ L, (buildOutline p st n).tokens = st.tokens ++ L) := by
  constructor
  · intro ls fileName parentObjects
    unfold getOutline
    cases hp : ls.program with
    | none => simp
    | some program =>
      simp only [hp]
      cases hf : getSourceFile program fileName with
      | none => simp
      | some currentFile =>
        simp only [hf]
        have h := (buildOutline_ok.1 currentFile none
          { ordinal := 0, indentation := 0, tokens := [] }).2
        have hinv : OutlineInv (buildOutline none
            { ordinal := 0, indentation := 0, tokens := [] } currentFile) :=
          ordTokOK_inv h ⟨List.Pairwise.nil, by simp⟩
        exact hinv.1
  · intro n p st
    obtain ⟨-, L, hL, -, -⟩ := (buildOutline_ok.1 n p st).2
    exact ⟨L, hL⟩

/-- C10: `getOutline` never reads its `parentObjects` argument, so the
outline is identical for any two argument lists. -/
theorem C10_outline_independent_of_parentObjects :
    ∀ (ls : LanguageServiceModel) (fileName : String) (p1 p2 : List String),
      getOutline ls fileName p1 = getOutline ls fileName p2 :=
  fun _ _ _ _ => rfl

/-- The initial traversal state of one `getOutline` call. -/
def zeroState : OutlineState :=
  { ordinal := 0, indentation := 0, tokens := [] }

/-- A method signature node. -/
def sigData : NodeData :=
  { blankData with kind := SyntaxKind.methodSignature, name := some (identName "m") }

/-- A file whose only declaration is a method signature. -/
def sigFile : Node :=
  Node.node { blankData with kind := SyntaxKind.sourceFile } [Node.node sigData []]

/-- A language service exposing `sigFile` under the name `sig.ts`. -/
def sigLS : LanguageServiceModel :=
  { program := some { sourceFiles := [("sig.ts", sigFile)] } }

/-- A constructor node. -/
def ctorData : NodeData :=
  { blankData with kind := SyntaxKind.constructorKeyword }

/-- C3 counterexample: a file containing a method-signature node produces
no token at all, not the one token per method-signature node the claim
promises. -/
theorem C3_method_signature_counterexample :
    sigData.kind = SyntaxKind.methodSignature
    ∧ getOutline sigLS "sig.ts" [] = [] :=
  ⟨rfl, by decide⟩

/-- C3 (amended): a method-declaration, constructor, function-declaration,
function-expression, get-accessor, set-accessor or arrow-function node
makes `extractMethod` emit exactly one token, whose kind is determined by
the node's category; a method-signature node advances the ordinal but
emits no token; and the outline builder dispatches each of these
categories (including method signatures) to `extractMethod` and indents
its subtree. -/
theorem C3_method_like_token_emission :
    (∀ (p : Option NodeData) (st : OutlineState) (d : NodeData),
      d.kind ∈ [SyntaxKind.methodDeclaration, SyntaxKind.constructorKeyword,
        SyntaxKind.functionDeclaration, SyntaxKind.functionExpression,
        SyntaxKind.getAccessor, SyntaxKind.setAccessor, SyntaxKind.arrowFunction] →
      ∃ t : CodeOutlineToken,
        extractMethod p st d
            = { st with ordinal := st.ordinal + 1, tokens := st.tokens ++ [t] }
        ∧ (d.kind = SyntaxKind.constructorKeyword → t.kind = CodeOutlineTokenKind.Constructor)
        ∧ (d.kind = SyntaxKind.methodDeclaration → t.kind = CodeOutlineTokenKind.Method)
        ∧ (d.kind = SyntaxKind.getAccessor → t.kind = CodeOutlineTokenKind.Get)
        ∧ (d.kind = SyntaxKind.setAccessor → t.kind = CodeOutlineTokenKind.Set)
        ∧ (d.kind = SyntaxKind.arrowFunction → t.kind = CodeOutlineTokenKind.Function)
        ∧ ((d.kind = SyntaxKind.functionDeclaration ∨ d.kind = SyntaxKind.functionExpression)
            → (t.kind = CodeOutlineTokenKind.Method ∨ t.kind = CodeOutlineTokenKind.Function)))
    ∧ (∀ (p : Option NodeData) (st : OutlineState) (d : NodeData),
        d.kind = SyntaxKind.methodSignature →
        extractMethod p st d = { st with ordinal := st.ordinal + 1 })
    ∧ (∀ (p : Option NodeData) (st : OutlineState) (d : NodeData),
        d.kind ∈ [SyntaxKind.methodDeclaration, SyntaxKind.methodSignature,
          SyntaxKind.functionDeclaration, SyntaxKind.functionExpression,
          SyntaxKind.getAccessor, SyntaxKind.setAccessor,
          SyntaxKind.constructorKeyword, SyntaxKind.arrowFunction] →
        outlineDispatch p st d
          = ({ extractMethod p st d with
                indentation := (extractMethod p st d).indentation + 1 }, true)) := by
  refine ⟨?_, ?_, ?_⟩
  · intro p st d h
    simp only [List.mem_cons, List.not_mem_nil, or_false] at h
    rcases h with hk | hk | hk | hk | hk | hk | hk <;>
      (simp only [extractMethod, hk]
       refine ⟨_, rfl, ?_, ?_, ?_, ?_, ?_, ?_⟩ <;> intro h' <;>
         first
           | rfl
           | exact Or.inl rfl
           | exact ite_eq_or_eq _ _ _
           | exact absurd h' (by decide))
  · intro p st d h
    simp only [extractMethod, h]
  · intro p st d h
    simp only [List.mem_cons, List.not_mem_nil, or_false] at h
    rcases h with hk | hk | hk | hk | hk | hk | hk | hk <;>
      simp only [outlineDispatch, hk]

/-- Witness for C3 (amended) at a concrete constructor node. -/
theorem C3_method_like_token_emission_witness :
    ∃ t : CodeOutlineToken,
      extractMethod none zeroState ctorData
          = { zeroState with
                ordinal := zeroState.ordinal + 1,
                tokens := zeroState.tokens ++ [t] }
      ∧ (ctorData.kind = SyntaxKind.constructorKeyword →
          t.kind = CodeOutlineTokenKind.Constructor)
      ∧ (ctorData.kind = SyntaxKind.methodDeclaration → t.kind = CodeOutlineTokenKind.Method)
      ∧ (ctorData.kind = SyntaxKind.getAccessor → t.kind = CodeOutlineTokenKind.Get)
      ∧ (ctorData.kind = SyntaxKind.setAccessor → t.kind = CodeOutlineTokenKind.Set)
      ∧ (ctorData.kind = SyntaxKind.arrowFunction → t.kind = CodeOutlineTokenKind.Function)
      ∧ ((ctorData.kind = SyntaxKind.functionDeclaration
            ∨ ctorData.kind = SyntaxKind.functionExpression)
          → (t.kind = CodeOutlineTokenKind.Method ∨ t.kind = CodeOutlineTokenKind.Function)) :=
  C3_method_like_token_emission.1 none zeroState ctorData (by decide)

/-- The property assignment `run: ...` that is the parent of the nodes in
the C4 scenario. -/
def runPropertyData : NodeData :=
  { blankData with kind := SyntaxKind.propertyAssignment, name := some (identName "run") }

/-- An anonymous arrow function node. -/
def arrowChildData : NodeData :=
  { blankData with kind := SyntaxKind.arrowFunction }

/-- A file containing an arrow function whose syntactic parent is a
property assignment. -/
def arrowFile : Node :=
  Node.node { blankData with kind := SyntaxKind.sourceFile }
    [Node.node runPropertyData [Node.node arrowChildData []]]

/-- A language service exposing `arrowFile` under the name `arrow.ts`. -/
def arrowLS : LanguageServiceModel :=
  { program := some { sourceFiles := [("arrow.ts", arrowFile)] } }

/-- An anonymous function expression node. -/
def funcExprData : NodeData :=
  { blankData with kind := SyntaxKind.functionExpression }

/-- C4 counterexample: an arrow function whose immediate parent is a
property assignment is emitted with kind `Function`, not the `Method` the
claim promises. -/
theorem C4_arrow_method_counterexample :
    runPropertyData.kind = SyntaxKind.propertyAssignment
    ∧ arrowChildData.kind = SyntaxKind.arrowFunction
    ∧ (getOutline arrowLS "arrow.ts" []).map CodeOutlineToken.kind
        = [CodeOutlineTokenKind.Function]
    ∧ CodeOutlineTokenKind.Function ≠ CodeOutlineTokenKind.Method :=
  ⟨rfl, rfl, by decide, by decide⟩

/-- C4 (amended): a function-declaration or function-expression node is
classified `Method` exactly when its immediate parent is a property
assignment and `Function` otherwise, while an arrow-function node is
always classified `Function`, whatever its parent. -/
theorem C4_function_parent_classification :
    (∀ (q : NodeData) (st : OutlineState) (d : NodeData),
      (d.kind = SyntaxKind.functionDeclaration ∨ d.kind = SyntaxKind.functionExpression) →
      ∃ t : CodeOutlineToken,
        extractMethod (some q) st d
            = { st with ordinal := st.ordinal + 1, tokens := st.tokens ++ [t] }
        ∧ t.kind = (if q.kind = SyntaxKind.propertyAssignment
                    then CodeOutlineTokenKind.Method
                    else CodeOutlineTokenKind.Function))
    ∧ (∀ (p : Option NodeData) (st : OutlineState) (d : NodeData),
        d.kind = SyntaxKind.arrowFunction →
        ∃ t : CodeOutlineToken,
          extractMethod p st d
              = { st with ordinal := st.ordinal + 1, tokens := st.tokens ++ [t] }
          ∧ t.kind = CodeOutlineTokenKind.Function) := by
  constructor
  · intro q st d h
    rcases h with hk | hk <;>
      (simp only [extractMethod, hk]
       refine ⟨_, rfl, ?_⟩
       by_cases hpa : q.kind = SyntaxKind.propertyAssignment
       · simp [hpa]
       · simp [hpa, apply_ite Prod.snd])
  · intro p st d h
    simp only [extractMethod, h]
    exact ⟨_, rfl, rfl⟩

/-- Witness for C4 (amended) at a concrete function expression whose
parent is the property assignment `run`. -/
theorem C4_function_parent_classification_witness :
    ∃ t : CodeOutlineToken,
      extractMethod (some runPropertyData) zeroState funcExprData
          = { zeroState with
                ordinal := zeroState.ordinal + 1,
                tokens := zeroState.tokens ++ [t] }
      ∧ t.kind = (if runPropertyData.kind = SyntaxKind.propertyAssignment
                  then CodeOutlineTokenKind.Method
                  else CodeOutlineTokenKind.Function) :=
  C4_function_parent_classification.1 runPropertyData zeroState funcExprData (Or.inr rfl)

/-- C9: an object-literal node makes the outline builder emit exactly one
`ObjectLiteral` token and indent its subtree if and only if the literal
qualifies — it contains at least one get/set accessor, or at least one
property assignment whose initializer is a function declaration or
function expression, or at least one method declaration — and a
non-qualifying literal produces no token and no indentation change while
its children are still visited. -/
theorem C9_object_literal_qualification (p : Option NodeData) (st : OutlineState)
    (d : NodeData) (cs : List Node)
    (hkind : d.kind = SyntaxKind.objectLiteralExpression) :
    ((extractLiteral p st d).2 = true
      ↔ (∃ pr ∈ d.properties,
            pr.kind = SyntaxKind.getAccessor ∨ pr.kind = SyntaxKind.setAccessor)
        ∨ (∃ pr ∈ d.properties,
            pr.kind = SyntaxKind.propertyAssignment
              ∧ (pr.initializer = some SyntaxKind.functionDeclaration
                 ∨ pr.initializer = some SyntaxKind.functionExpression))
        ∨ (∃ pr ∈ d.properties, pr.kind = SyntaxKind.methodDeclaration))
    ∧ ((extractLiteral p st d).2 = true →
        ∃ t : CodeOutlineToken,
          (extractLiteral p st d).1
              = { st with ordinal := st.ordinal + 1, tokens := st.tokens ++ [t] }
          ∧ t.kind = CodeOutlineTokenKind.ObjectLiteral
          ∧ buildOutline p st (Node.node d cs)
              = (let st2 := buildOutlineList d
                    { (extractLiteral p st d).1 with
                        indentation := (extractLiteral p st d).1.indentation + 1 } cs
                 { st2 with indentation := st2.indentation - 1 }))
    ∧ ((extractLiteral p st d).2 = false →
        (extractLiteral p st d).1 = st
        ∧ buildOutline p st (Node.node d cs) = buildOutlineList d st cs) := by
  refine ⟨?_, ?_, ?_⟩
  · rw [extractLiteral_snd]
    exact didExtractLiteralOf_iff d
  · intro ht
    obtain ⟨t, h1, h2, h3, h4⟩ := (extractLiteral_cases p st d).1 ht
    refine ⟨t, h1, h2, ?_⟩
    have hD : outlineDispatch p st d
        = ({ (extractLiteral p st d).1 with
              indentation := (extractLiteral p st d).1.indentation + 1 }, true) := by
      simp only [outlineDispatch, hkind]
      rw [if_pos ht]
    simp only [buildOutline, hD]
    simp
  · intro hf
    have h1 := (extractLiteral_cases p st d).2 hf
    refine ⟨h1, ?_⟩
    have hD : outlineDispatch p st d = (st, false) := by
      simp only [outlineDispatch, hkind]
      rw [if_neg (by rw [hf]; exact (by decide : ¬(false = true)))]
      rw [h1]
    simp only [buildOutline, hD]
    simp

/-- The single method-shaped property of the C9 scenario literal. -/
def oProperties : List PropInfo :=
  [{ kind := SyntaxKind.propertyAssignment,
     initializer := some SyntaxKind.functionExpression }]

/-- The object literal `{ run: function() {} }`. -/
def oLiteralData : NodeData :=
  { blankData with
      kind := SyntaxKind.objectLiteralExpression,
      properties := oProperties }

/-- The variable declaration `const o = ...` that owns the literal. -/
def oVarDeclData : NodeData :=
  { blankData with
      kind := SyntaxKind.variableDeclaration,
      name := some (identName "o") }

/-- Witness for C9 at a concrete qualifying literal. -/
theorem C9_object_literal_qualification_witness :
    (extractLiteral (some oVarDeclData) zeroState oLiteralData).2 = true
      ↔ (∃ pr ∈ oLiteralData.properties,
            pr.kind = SyntaxKind.getAccessor ∨ pr.kind = SyntaxKind.setAccessor)
        ∨ (∃ pr ∈ oLiteralData.properties,
            pr.kind = SyntaxKind.propertyAssignment
              ∧ (pr.initializer = some SyntaxKind.functionDeclaration
                 ∨ pr.initializer = some SyntaxKind.functionExpression))
        ∨ (∃ pr ∈ oLiteralData.properties, pr.kind = SyntaxKind.methodDeclaration) :=
  (C9_object_literal_qualification (some oVarDeclData) zeroState oLiteralData [] rfl).1
